import Mathlib

/-!
# consolving/config: a key-value store backed by a JSON file

A shallow embedding of `config/config.go`.

The program is a thin layer over three library packages, which are modelled
by what they are documented to do:

* `os` / `io/ioutil`: a file system is a function from paths to nodes. A node
  is absent, present but unreadable, or a readable file with a content.
  `os.Create` succeeds exactly on the paths marked writable.
* `encoding/json`: a file content is either bytes that are not a JSON document
  or the JSON document the bytes denote. `json.MarshalIndent` yields the
  document denoting a Go value (and fails on a value JSON has no encoding for),
  `json.Unmarshal` into a `map[string]interface{}` reads a document back (and
  fails on a document whose top-level value is not an object or `null`, and on
  one that holds a number literal outside the range of float64).
  The textual layer (indentation, key order, escapes) is below this model, and
  so is the nesting limit of the decoder: a text nested deeper than the scanner
  allows counts among the bytes that are not a JSON document.
* `log`: the lines printed so far.

Run-time panics of Go (assignment to an entry of a nil map, a failed
single-valued type assertion) are results of their own.
-/

namespace config

/-! ## Go values and JSON documents -/

/-- Go `float64`. Numbers are only ever transported by this program, so a
finite value is identified by a code; what matters to `encoding/json` is
whether the value is finite. -/
inductive Float64
  | finite (code : Int)
  | inf (negative : Bool)
  | nan
deriving DecidableEq

/-- The dynamic values an `interface{}` holds in this program: the kinds
`json.Unmarshal` stores into an `interface{}` (`nil`, `bool`, `float64`,
`string`, `[]interface{}`, `map[string]interface{}`). A map is the list of its
entries; the value of a key is that of its last entry. A string is a sequence
of Unicode characters. Go values of other types that `Set` accepts (integers,
typed slices, structs, channels, strings that are not valid UTF-8, values
nested deeper than the decoder reads back) are outside the model. -/
inductive Value
  | nil
  | bool (b : Bool)
  | float64 (f : Float64)
  | string (s : String)
  | slice (xs : List Value)
  | map (m : List (String × Value))

/-- A JSON number literal, by what `strconv.ParseFloat` makes of it: the
finite float64 it reads as, or a range error (as for `1e400`). -/
inductive NumberLiteral
  | fits (code : Int)
  | outOfRange
deriving DecidableEq

/-- A JSON document. An object is the list of its members in textual order. -/
inductive Json
  | null
  | bool (b : Bool)
  | number (lit : NumberLiteral)
  | string (s : String)
  | array (xs : List Json)
  | object (ms : List (String × Json))

/-- Go `error` values that occur in this program. -/
inductive Error
  | notExist
  | permission
  | invalidJSON
  | unmarshalType
  | unsupportedValue
deriving DecidableEq

/-- Go run-time panics that occur in this program. -/
inductive Panic
  | nilMapAssignment
  | interfaceConversion
deriving DecidableEq

/-- Go `map[string]interface{}`: `none` is the nil map, `some es` a map with
entries `es`. -/
abbrev GoMap := Option (List (String × Value))

/-- Value of `key` among the entries, the last entry of a key counting. -/
def lookup (key : String) : List (String × Value) → Option Value
  | [] => none
  | (k, v) :: es =>
    match lookup key es with
    | some w => some w
    | none => if k = key then some v else none

/-- Entries after `m[key] = value` on a non-nil map. -/
def assign (key : String) (value : Value) (es : List (String × Value)) :
    List (String × Value) :=
  es.filter (fun e => e.1 ≠ key) ++ [(key, value)]

/-- Go `m[key]` in the two-valued form `value, present := m[key]`; reading a
nil map finds nothing. -/
def GoMap.get (m : GoMap) (key : String) : Option Value :=
  match m with
  | none => none
  | some es => lookup key es

/-- Go `m[key] = value`; panics on a nil map. -/
def GoMap.set (m : GoMap) (key : String) (value : Value) : Except Panic GoMap :=
  match m with
  | none => .error .nilMapAssignment
  | some es => .ok (some (assign key value es))

/-! ## encoding/json -/

mutual
/-- The document `json.Marshal` produces for a value; NaN and the infinities
are unsupported values. -/
def encodeValue : Value → Except Error Json
  | .nil => .ok .null
  | .bool b => .ok (.bool b)
  | .float64 (.finite n) => .ok (.number (.fits n))
  | .float64 (.inf _) => .error .unsupportedValue
  | .float64 .nan => .error .unsupportedValue
  | .string s => .ok (.string s)
  | .slice xs =>
    match encodeSlice xs with
    | .ok js => .ok (.array js)
    | .error e => .error e
  | .map m =>
    match encodeMap m with
    | .ok ms => .ok (.object ms)
    | .error e => .error e
/-- Elements of a slice, in order. -/
def encodeSlice : List Value → Except Error (List Json)
  | [] => .ok []
  | v :: vs =>
    match encodeValue v with
    | .error e => .error e
    | .ok j =>
      match encodeSlice vs with
      | .error e => .error e
      | .ok js => .ok (j :: js)
/-- Entries of a map. -/
def encodeMap : List (String × Value) → Except Error (List (String × Json))
  | [] => .ok []
  | (k, v) :: m =>
    match encodeValue v with
    | .error e => .error e
    | .ok j =>
      match encodeMap m with
      | .error e => .error e
      | .ok ms => .ok ((k, j) :: ms)
end

mutual
/-- The value `json.Unmarshal` stores into an `interface{}` for a document. A
number literal that `strconv.ParseFloat` rejects is an `UnmarshalTypeError`;
Go goes on decoding and returns that error at the end, and since the caller
drops the decoded map on an error only the error is kept here. -/
def decodeValue : Json → Except Error Value
  | .null => .ok .nil
  | .bool b => .ok (.bool b)
  | .number (.fits n) => .ok (.float64 (.finite n))
  | .number .outOfRange => .error .unmarshalType
  | .string s => .ok (.string s)
  | .array xs =>
    match decodeArray xs with
    | .ok vs => .ok (.slice vs)
    | .error e => .error e
  | .object ms =>
    match decodeObject ms with
    | .ok es => .ok (.map es)
    | .error e => .error e
/-- Elements of an array, in order. -/
def decodeArray : List Json → Except Error (List Value)
  | [] => .ok []
  | j :: js =>
    match decodeValue j with
    | .error e => .error e
    | .ok v =>
      match decodeArray js with
      | .error e => .error e
      | .ok vs => .ok (v :: vs)
/-- Members of an object, in order: a later member of the same name is
assigned later and so counts. -/
def decodeObject : List (String × Json) → Except Error (List (String × Value))
  | [] => .ok []
  | (k, j) :: ms =>
    match decodeValue j with
    | .error e => .error e
    | .ok v =>
      match decodeObject ms with
      | .error e => .error e
      | .ok es => .ok ((k, v) :: es)
end

/-- Content of a file: `text` is a byte sequence the scanner of `encoding/json`
rejects with a syntax error, one that is not a JSON document (the empty file is
`text []`); `json` is the document the bytes denote. -/
inductive Content
  | text (bytes : List Nat)
  | json (doc : Json)

/-- Go `json.MarshalIndent(m, "", "  ")` for a `map[string]interface{}`: a nil
map is encoded as `null`. -/
def MarshalIndent (m : GoMap) : Except Error Content :=
  match m with
  | none => .ok (.json .null)
  | some es =>
    match encodeMap es with
    | .ok ms => .ok (.json (.object ms))
    | .error e => .error e

/-- Go `json.Unmarshal(data, &config)` for a nil `config map[string]interface{}`:
`null` leaves the map nil without an error, an object makes a new map unless
one of its number literals is out of range, any other document is a type
error. -/
def Unmarshal (data : Content) : Except Error GoMap :=
  match data with
  | .text _ => .error .invalidJSON
  | .json .null => .ok none
  | .json (.object ms) =>
    match decodeObject ms with
    | .ok es => .ok (some es)
    | .error e => .error e
  | .json _ => .error .unmarshalType

/-! ## os, io/ioutil, log -/

/-- What a path names. -/
inductive Node
  | absent
  | unreadable
  | file (content : Content)

/-- A file system: what each path names, and where `os.Create` succeeds. -/
structure FS where
  node : String → Node
  writable : String → Bool

/-- The world outside the program: environment variables, the file system and
the lines logged. -/
structure World where
  env : String → Option String
  fs : FS
  log : List String

/-- Go `os.LookupEnv`. -/
def LookupEnv (w : World) (name : String) : Option String :=
  w.env name

/-- Go `os.Stat`, of which the program keeps only the error. -/
def Stat (fs : FS) (path : String) : Option Error :=
  match fs.node path with
  | .absent => some .notExist
  | _ => none

/-- Go `os.IsNotExist`. -/
def IsNotExist (err : Option Error) : Bool :=
  match err with
  | some .notExist => true
  | _ => false

/-- Go `ioutil.ReadFile`. -/
def ReadFile (fs : FS) (path : String) : Except Error Content :=
  match fs.node path with
  | .absent => .error .notExist
  | .unreadable => .error .permission
  | .file c => .ok c

/-- Go `os.Create`: creates the file or truncates it. -/
def Create (fs : FS) (path : String) : Except Error FS :=
  if fs.writable path then
    .ok { fs with node := fun q =>
            if q = path then
              match fs.node path with
              | .unreadable => .unreadable
              | _ => .file (.text [])
            else fs.node q }
  else .error .permission

/-- Go `(*os.File).Write` on the file just created at `path`. -/
def Write (fs : FS) (path : String) (data : Content) : FS :=
  { fs with node := fun q =>
      if q = path then
        match fs.node path with
        | .unreadable => .unreadable
        | _ => .file data
      else fs.node q }

/-- Go `log.Printf`. -/
def Printf (w : World) (line : String) : World :=
  { w with log := w.log ++ [line] }

/-! ## config.go -/

/-- Go `type Config struct`. -/
structure Config where
  configuration : GoMap
  configFile : String

/-- What a public method leaves behind: a panic, or its result with the
receiver and the world after the call. -/
abbrev Outcome (α : Type) := Except Panic (α × Config × World)

/-- Go `NewConfigWithFile`. -/
def NewConfigWithFile (configFile : String) (w : World) : Config × World :=
  ({ configFile := configFile, configuration := some [] }, w)

/-- Go `NewConfig`. -/
def NewConfig (w : World) : Config × World :=
  match LookupEnv w "CONFIG_PATH" with
  | some path => NewConfigWithFile path w
  | none => NewConfigWithFile "config.json" w

/-- Go `(*Config).readConfig`: the error returned and the receiver after. -/
def Config.readConfig (c : Config) (w : World) : Option Error × Config :=
  match ReadFile w.fs c.configFile with
  | .error err => (some err, c)
  | .ok jsonData =>
    match Unmarshal jsonData with
    | .error err => (some err, c)
    | .ok config => (none, { c with configuration := config })

/-- Go `(*Config).writeConfig`: the error returned and the world after. -/
def Config.writeConfig (c : Config) (w : World) : Option Error × World :=
  match MarshalIndent c.configuration with
  | .error err => (some err, w)
  | .ok jsonData =>
    match Create w.fs c.configFile with
    | .error err => (some err, w)
    | .ok fs => (none, { w with fs := Write fs c.configFile jsonData })

/-- Go `(*Config).Check`. -/
def Config.Check (c : Config) (w : World) : Outcome Bool :=
  if IsNotExist (Stat w.fs c.configFile) then
    let w1 := Printf w
      ("Could not find a configuration file at " ++ c.configFile ++ ". Creating one!")
    let w2 := (c.writeConfig w1).2
    let c1 := (c.readConfig w2).2
    .ok (false, c1, w2)
  else
    let c1 := (c.readConfig w).2
    .ok (true, c1, w)

/-- Go `(*Config).Get`. -/
def Config.Get (c : Config) (key : String) (w : World) : Outcome String :=
  let c1 := (c.readConfig w).2
  match c1.configuration.get key with
  | some value =>
    match value with
    | .string s => .ok (s, c1, w)
    | _ => .error .interfaceConversion
  | none => .ok ("", c1, w)

/-- Go `(*Config).Set`. -/
def Config.Set (c : Config) (key : String) (value : Value) (w : World) : Outcome Unit :=
  let c1 := (c.readConfig w).2
  match c1.configuration.set key value with
  | .error p => .error p
  | .ok m =>
    let c2 := { c1 with configuration := m }
    .ok ((), c2, (c2.writeConfig w).2)

/-- Go `(*Config).GetAsArray`; `none` is the nil slice. The comment in the
source calls the result a string array; the code returns the elements as they
are, of any kind. -/
def Config.GetAsArray (c : Config) (key : String) (w : World) :
    Outcome (Option (List Value)) :=
  let c1 := (c.readConfig w).2
  match c1.configuration.get key with
  | some (.slice xs) => .ok (some xs, c1, w)
  | _ => .ok (none, c1, w)

/-- Go `(*Config).GetAsMap`; `none` is the nil map. -/
def Config.GetAsMap (c : Config) (key : String) (w : World) : Outcome GoMap :=
  let c1 := (c.readConfig w).2
  match c1.configuration.get key with
  | some (.map m) => .ok (some m, c1, w)
  | _ => .ok (none, c1, w)

/-- Go `defaultData`, as initialised. The comment in the source calls it
prefilled; nothing in the package fills it or uses it when a file is
created. -/
def defaultData : GoMap := some []

/-- Go `GetDefaultData`. -/
def GetDefaultData : GoMap := defaultData

/-- A value `encoding/json` can encode. -/
def JSONRepresentable (v : Value) : Prop :=
  ∃ j, encodeValue v = .ok j

/-! ## Worlds used in examples -/

/-- A file system with nothing at any path, writable everywhere. -/
def emptyFS : FS :=
  { node := fun _ => .absent, writable := fun _ => true }

/-- A file system and nothing else: no environment variable, nothing logged. -/
def worldOf (fs : FS) : World :=
  { env := fun _ => none, fs := fs, log := [] }

/-- The file system with one readable file at `path`, writable everywhere. -/
def oneFile (path : String) (content : Content) : FS :=
  { node := fun q => if q = path then .file content else .absent,
    writable := fun _ => true }

/-- The world with an empty file system. -/
def emptyWorld : World :=
  worldOf emptyFS

/-- The world whose only file is `config.json`, with the given content. -/
def fileWorld (content : Content) : World :=
  worldOf (oneFile "config.json" content)

/-- The world with an empty file system where `CONFIG_PATH` is set to the
given value. -/
def envWorld (value : String) : World :=
  { env := fun n => if n = "CONFIG_PATH" then some value else none,
    fs := emptyFS, log := [] }

/-- The members of the JSON object `{"name": "bob", "big": 1e400}`, whose
second number literal is out of the range of float64. -/
def bigMembers : List (String × Json) :=
  [("name", .string "bob"), ("big", .number .outOfRange)]

/-- The store `NewConfigWithFile("config.json")` returns. -/
def freshStore : Config :=
  (NewConfigWithFile "config.json" emptyWorld).1

/-- A store bound to `config.json` whose mapping has the given entries. -/
def storeWith (es : List (String × Value)) : Config :=
  { configuration := some es, configFile := "config.json" }

/-- The world after the first `Check` of `freshStore` on an empty file system:
the line is logged and the file written. -/
def createdWorld : World :=
  (freshStore.writeConfig (Printf emptyWorld
    ("Could not find a configuration file at " ++ freshStore.configFile ++
      ". Creating one!"))).2

/-! ## encoding/json: decoding after encoding, encoding after decoding -/

mutual
/-- Decoding the document of a value gives the value back. -/
theorem decode_encodeValue : ∀ (v : Value) (j : Json),
    encodeValue v = .ok j → decodeValue j = .ok v
  | .nil, j, h => by simp [encodeValue] at h; subst h; rfl
  | .bool b, j, h => by simp [encodeValue] at h; subst h; rfl
  | .float64 (.finite n), j, h => by simp [encodeValue] at h; subst h; rfl
  | .float64 (.inf _), j, h => by simp [encodeValue] at h
  | .float64 .nan, j, h => by simp [encodeValue] at h
  | .string s, j, h => by simp [encodeValue] at h; subst h; rfl
  | .slice xs, j, h => by
    simp only [encodeValue] at h
    cases hx : encodeSlice xs with
    | error e => simp [hx] at h
    | ok js =>
      simp [hx] at h
      subst h
      simp [decodeValue, decode_encodeSlice xs js hx]
  | .map m, j, h => by
    simp only [encodeValue] at h
    cases hx : encodeMap m with
    | error e => simp [hx] at h
    | ok ms =>
      simp [hx] at h
      subst h
      simp [decodeValue, decode_encodeMap m ms hx]
/-- Decoding the documents of a slice gives the slice back. -/
theorem decode_encodeSlice : ∀ (xs : List Value) (js : List Json),
    encodeSlice xs = .ok js → decodeArray js = .ok xs
  | [], js, h => by simp [encodeSlice] at h; subst h; rfl
  | v :: vs, js, h => by
    simp only [encodeSlice] at h
    cases hv : encodeValue v with
    | error e => simp [hv] at h
    | ok j =>
      cases hs : encodeSlice vs with
      | error e => simp [hv, hs] at h
      | ok js1 =>
        simp [hv, hs] at h
        subst h
        simp [decodeArray, decode_encodeValue v j hv, decode_encodeSlice vs js1 hs]
/-- Decoding the members of an encoded map gives the entries back. -/
theorem decode_encodeMap : ∀ (m : List (String × Value)) (ms : List (String × Json)),
    encodeMap m = .ok ms → decodeObject ms = .ok m
  | [], ms, h => by simp [encodeMap] at h; subst h; rfl
  | (k, v) :: m, ms, h => by
    simp only [encodeMap] at h
    cases hv : encodeValue v with
    | error e => simp [hv] at h
    | ok j =>
      cases hs : encodeMap m with
      | error e => simp [hv, hs] at h
      | ok ms1 =>
        simp [hv, hs] at h
        subst h
        simp [decodeObject, decode_encodeValue v j hv, decode_encodeMap m ms1 hs]
end

mutual
/-- A decoded value can be encoded, to the document it came from. -/
theorem encode_decodeValue : ∀ (j : Json) (v : Value),
    decodeValue j = .ok v → encodeValue v = .ok j
  | .null, v, h => by simp [decodeValue] at h; subst h; rfl
  | .bool _, v, h => by simp [decodeValue] at h; subst h; rfl
  | .number (.fits n), v, h => by simp [decodeValue] at h; subst h; rfl
  | .number .outOfRange, v, h => by simp [decodeValue] at h
  | .string _, v, h => by simp [decodeValue] at h; subst h; rfl
  | .array xs, v, h => by
    simp only [decodeValue] at h
    cases hx : decodeArray xs with
    | error e => simp [hx] at h
    | ok vs =>
      simp [hx] at h
      subst h
      simp [encodeValue, encode_decodeArray xs vs hx]
  | .object ms, v, h => by
    simp only [decodeValue] at h
    cases hx : decodeObject ms with
    | error e => simp [hx] at h
    | ok es =>
      simp [hx] at h
      subst h
      simp [encodeValue, encode_decodeObject ms es hx]
/-- A decoded array can be encoded. -/
theorem encode_decodeArray : ∀ (js : List Json) (vs : List Value),
    decodeArray js = .ok vs → encodeSlice vs = .ok js
  | [], vs, h => by simp [decodeArray] at h; subst h; rfl
  | j :: js, vs, h => by
    simp only [decodeArray] at h
    cases hv : decodeValue j with
    | error e => simp [hv] at h
    | ok v =>
      cases hs : decodeArray js with
      | error e => simp [hv, hs] at h
      | ok vs1 =>
        simp [hv, hs] at h
        subst h
        simp [encodeSlice, encode_decodeValue j v hv, encode_decodeArray js vs1 hs]
/-- A decoded object can be encoded. -/
theorem encode_decodeObject : ∀ (ms : List (String × Json)) (es : List (String × Value)),
    decodeObject ms = .ok es → encodeMap es = .ok ms
  | [], es, h => by simp [decodeObject] at h; subst h; rfl
  | (k, j) :: ms, es, h => by
    simp only [decodeObject] at h
    cases hv : decodeValue j with
    | error e => simp [hv] at h
    | ok v =>
      cases hs : decodeObject ms with
      | error e => simp [hv, hs] at h
      | ok es1 =>
        simp [hv, hs] at h
        subst h
        simp [encodeMap, encode_decodeValue j v hv, encode_decodeObject ms es1 hs]
end

/-! ## Maps -/

/-- Looking a key up after an entry was appended. -/
theorem lookup_append_last (key k : String) (v : Value) (es : List (String × Value)) :
    lookup key (es ++ [(k, v)]) = if k = key then some v else lookup key es := by
  induction es with
  | nil => simp [lookup]
  | cons e es ih =>
    obtain ⟨k0, v0⟩ := e
    rw [List.cons_append, lookup, ih]
    by_cases hk : k = key
    · simp [hk]
    · simp [hk, lookup]

/-- Removing the entries of one key leaves the other keys as they were. -/
theorem lookup_filter_ne (key k : String) (es : List (String × Value)) (h : k ≠ key) :
    lookup k (es.filter (fun e => e.1 ≠ key)) = lookup k es := by
  induction es with
  | nil => rfl
  | cons e es ih =>
    obtain ⟨k0, v0⟩ := e
    by_cases h0 : k0 = key
    · have hk : ¬ k0 = k := fun hh => h (hh ▸ h0)
      rw [List.filter_cons_of_neg (by simp [h0]), ih, lookup]
      simp [hk]
      cases lookup k es <;> rfl
    · rw [List.filter_cons_of_pos (by simp [h0]), lookup, ih, lookup]

/-- After `m[key] = value` the key has the value. -/
theorem lookup_assign_self (key : String) (value : Value) (es : List (String × Value)) :
    lookup key (assign key value es) = some value := by
  simp [assign, lookup_append_last]

/-- After `m[key] = value` every other key is as before. -/
theorem lookup_assign_other (key k : String) (value : Value) (es : List (String × Value))
    (h : k ≠ key) : lookup k (assign key value es) = lookup k es := by
  have h2 : ¬ key = k := fun hh => h hh.symm
  rw [assign, lookup_append_last, if_neg h2, lookup_filter_ne key k es h]

/-- Encoding the entries of two lists put together. -/
theorem encodeMap_append (a b : List (String × Value)) (x y : List (String × Json))
    (ha : encodeMap a = .ok x) (hb : encodeMap b = .ok y) :
    encodeMap (a ++ b) = .ok (x ++ y) := by
  induction a generalizing x with
  | nil => simp [encodeMap] at ha; subst ha; simpa using hb
  | cons e a ih =>
    obtain ⟨k, v⟩ := e
    simp only [encodeMap] at ha
    cases hv : encodeValue v with
    | error e => simp [hv] at ha
    | ok j =>
      cases hs : encodeMap a with
      | error e => simp [hv, hs] at ha
      | ok x1 =>
        simp [hv, hs] at ha
        subst ha
        simp [encodeMap, hv, ih x1 hs]

/-- Entries that can be encoded can still be encoded when some are removed. -/
theorem encodeMap_filter (p : String × Value → Bool) (a : List (String × Value))
    (x : List (String × Json)) (ha : encodeMap a = .ok x) :
    ∃ y, encodeMap (a.filter p) = .ok y := by
  induction a generalizing x with
  | nil => exact ⟨[], rfl⟩
  | cons e a ih =>
    obtain ⟨k, v⟩ := e
    simp only [encodeMap] at ha
    cases hv : encodeValue v with
    | error e => simp [hv] at ha
    | ok j =>
      cases hs : encodeMap a with
      | error e => simp [hv, hs] at ha
      | ok x1 =>
        obtain ⟨y, hy⟩ := ih x1 hs
        by_cases hp : p (k, v) = true
        · exact ⟨(k, j) :: y, by simp [List.filter, hp, encodeMap, hv, hy]⟩
        · exact ⟨y, by simp [List.filter, hp, hy]⟩

/-- A map that can be encoded can still be encoded after `m[key] = value` with
a value that can be encoded. -/
theorem encodeMap_assign (key : String) (value : Value) (es : List (String × Value))
    (x : List (String × Json)) (j : Json)
    (he : encodeMap es = .ok x) (hv : encodeValue value = .ok j) :
    ∃ y, encodeMap (assign key value es) = .ok y := by
  obtain ⟨y, hy⟩ := encodeMap_filter (fun e => e.1 ≠ key) es x he
  have h1 : encodeMap [(key, value)] = .ok [(key, j)] := by simp [encodeMap, hv]
  exact ⟨y ++ [(key, j)], encodeMap_append _ _ _ _ hy h1⟩

/-! ## Reloading -/

/-- Reloading keeps the path. -/
theorem readConfig_configFile (c : Config) (w : World) :
    (c.readConfig w).2.configFile = c.configFile := by
  unfold Config.readConfig
  cases h1 : ReadFile w.fs c.configFile with
  | error e => rfl
  | ok d =>
    cases h2 : Unmarshal d with
    | error e => simp [h2]
    | ok m => simp [h2]

/-- Reloading a file that holds a JSON object `json.Unmarshal` accepts
replaces the mapping by the decoded object. -/
theorem readConfig_object (c : Config) (w : World) (ms : List (String × Json))
    (es : List (String × Value))
    (h : w.fs.node c.configFile = .file (.json (.object ms)))
    (hd : decodeObject ms = .ok es) :
    c.readConfig w = (none, { c with configuration := some es }) := by
  simp [Config.readConfig, ReadFile, h, Unmarshal, hd]

/-- Reloading a file that holds a JSON object with a number literal out of
range fails and keeps the store. -/
theorem readConfig_object_rejected (c : Config) (w : World) (ms : List (String × Json))
    (e : Error)
    (h : w.fs.node c.configFile = .file (.json (.object ms)))
    (hd : decodeObject ms = .error e) :
    c.readConfig w = (some e, c) := by
  simp [Config.readConfig, ReadFile, h, Unmarshal, hd]

/-- What `json.Unmarshal` accepting an object as a non-nil map amounts to. -/
theorem decodeObject_of_Unmarshal (ms : List (String × Json)) (es : List (String × Value))
    (h : Unmarshal (.json (.object ms)) = .ok (some es)) : decodeObject ms = .ok es := by
  simp only [Unmarshal] at h
  cases hd : decodeObject ms with
  | error e => simp [hd] at h
  | ok es1 => simp [hd] at h; rw [h]

/-- Reloading when nothing is at the path fails and keeps the store. -/
theorem readConfig_absent (c : Config) (w : World)
    (h : w.fs.node c.configFile = .absent) :
    c.readConfig w = (some .notExist, c) := by
  simp [Config.readConfig, ReadFile, h]

/-- Reloading twice from the same world is reloading once. -/
theorem readConfig_idem (c : Config) (w : World) :
    ((c.readConfig w).2.readConfig w).2 = (c.readConfig w).2 := by
  unfold Config.readConfig
  cases h1 : ReadFile w.fs c.configFile with
  | error e => simp [h1]
  | ok d =>
    cases h2 : Unmarshal d with
    | error e => simp [h1, h2]
    | ok m => simp [h1, h2]


/-! ## Writing -/

/-- Writing a mapping that can be encoded to a writable path where a readable
file or nothing is: the file then holds the document of the mapping, and
nothing else changes. -/
theorem writeConfig_ok (c : Config) (w : World) (d : Content)
    (hm : MarshalIndent c.configuration = .ok d)
    (hw : w.fs.writable c.configFile = true)
    (hn : w.fs.node c.configFile ≠ .unreadable) :
    (c.writeConfig w).1 = none ∧
    (c.writeConfig w).2.fs.node c.configFile = .file d ∧
    (∀ q, q ≠ c.configFile → (c.writeConfig w).2.fs.node q = w.fs.node q) ∧
    (c.writeConfig w).2.fs.writable = w.fs.writable ∧
    (c.writeConfig w).2.env = w.env ∧ (c.writeConfig w).2.log = w.log := by
  have hnode : (c.writeConfig w).2.fs.node c.configFile = .file d := by
    simp only [Config.writeConfig, hm, Create, hw, if_true, Write]
  refine ⟨?_, hnode, ?_, ?_, ?_, ?_⟩
  · simp [Config.writeConfig, hm, Create, hw]
  · intro q hq
    simp [Config.writeConfig, hm, Create, hw, Write, hq]
  · simp [Config.writeConfig, hm, Create, hw, Write]
  · simp [Config.writeConfig, hm, Create, hw]
  · simp [Config.writeConfig, hm, Create, hw]

/-- Go `Set` on a writable path whose file holds a JSON object that
`json.Unmarshal` accepts, with a value that can be encoded: the store and the
file hold the object updated at the key. -/
theorem Set_object (c : Config) (w : World) (ms : List (String × Json))
    (es : List (String × Value)) (key : String) (value : Value) (j : Json)
    (hf : w.fs.node c.configFile = .file (.json (.object ms)))
    (hd : decodeObject ms = .ok es)
    (hw : w.fs.writable c.configFile = true)
    (hv : encodeValue value = .ok j) :
    ∃ ms1 w1,
      c.Set key value w =
        .ok ((), { configuration := some (assign key value es),
                   configFile := c.configFile }, w1) ∧
      w1.fs.node c.configFile = .file (.json (.object ms1)) ∧
      decodeObject ms1 = .ok (assign key value es) ∧
      (∀ q, q ≠ c.configFile → w1.fs.node q = w.fs.node q) ∧
      w1.fs.writable = w.fs.writable := by
  obtain ⟨ms1, h1⟩ :=
    encodeMap_assign key value es ms j (encode_decodeObject ms es hd) hv
  have hm : MarshalIndent (some (assign key value es)) =
      .ok (.json (.object ms1)) := by simp [MarshalIndent, h1]
  have hn : w.fs.node c.configFile ≠ .unreadable := by simp [hf]
  have hwc := writeConfig_ok
    { configuration := some (assign key value es),
      configFile := c.configFile } w _ hm hw hn
  refine ⟨ms1, _, ?_, hwc.2.1, decode_encodeMap _ _ h1, hwc.2.2.1, hwc.2.2.2.1⟩
  simp [Config.Set, readConfig_object c w ms es hf hd, GoMap.set]

/-! ## Set followed by a getter on the same store -/

/-- The getters of a store that a reload leaves as it is answer from its
mapping. -/
theorem getters_of_stable (c : Config) (w : World) (key : String) (value : Value)
    (hr : (c.readConfig w).2 = c) (hl : c.configuration.get key = some value) :
    (∀ s, value = .string s → c.Get key w = .ok (s, c, w)) ∧
    (∀ xs, value = .slice xs → c.GetAsArray key w = .ok (some xs, c, w)) ∧
    (∀ m, value = .map m → c.GetAsMap key w = .ok (some m, c, w)) := by
  refine ⟨?_, ?_, ?_⟩
  · intro s hs
    subst hs
    simp [Config.Get, hr, hl]
  · intro xs hs
    subst hs
    simp [Config.GetAsArray, hr, hl]
  · intro m hs
    subst hs
    simp [Config.GetAsMap, hr, hl]

/-- Round trip on one store whose reload fails and whose mapping is not the nil
map: `Set` followed by the matching getter returns the value, from the file
when the mapping could be written and from memory when it could not. -/
theorem Set_then_getter_of_failed_reload (c : Config) (w : World) (key : String)
    (value : Value) (es : List (String × Value)) (e : Error)
    (hfail : ∀ c2 : Config, c2.configFile = c.configFile → c2.readConfig w = (some e, c2))
    (hes : c.configuration = some es)
    (hn : w.fs.node c.configFile ≠ .unreadable)
    (hw : w.fs.writable c.configFile = true) :
    ∃ c1 w1, c.Set key value w = .ok ((), c1, w1) ∧
      (∀ s, value = .string s → c1.Get key w1 = .ok (s, c1, w1)) ∧
      (∀ xs, value = .slice xs → c1.GetAsArray key w1 = .ok (some xs, c1, w1)) ∧
      (∀ m, value = .map m → c1.GetAsMap key w1 = .ok (some m, c1, w1)) := by
  have hl : GoMap.get (some (assign key value es)) key = some value :=
    lookup_assign_self key value es
  cases hm : MarshalIndent (some (assign key value es)) with
  | error e1 =>
    refine ⟨{ configuration := some (assign key value es), configFile := c.configFile },
      w, ?_, ?_⟩
    · simp [Config.Set, hfail c rfl, hes, GoMap.set, Config.writeConfig, hm]
    · exact getters_of_stable _ w key value
        (by rw [hfail
          { configuration := some (assign key value es), configFile := c.configFile }
          rfl]) hl
  | ok d =>
    have hwc := writeConfig_ok
      { configuration := some (assign key value es), configFile := c.configFile }
      w d hm hw hn
    refine ⟨{ configuration := some (assign key value es), configFile := c.configFile },
      (Config.writeConfig
        { configuration := some (assign key value es), configFile := c.configFile } w).2,
      ?_, ?_⟩
    · simp [Config.Set, hfail c rfl, hes, GoMap.set]
    · refine getters_of_stable _ _ key value ?_ hl
      simp only [MarshalIndent] at hm
      cases he : encodeMap (assign key value es) with
      | error e2 => simp [he] at hm
      | ok ms1 =>
        simp [he] at hm
        subst hm
        rw [readConfig_object
          { configuration := some (assign key value es), configFile := c.configFile }
          _ ms1 (assign key value es) hwc.2.1 (decode_encodeMap _ _ he)]

/-- Round trip on one store, for every store whose mapping is not the nil map
when its reload fails: with nothing at the path or a JSON object in the file
(one `json.Unmarshal` accepts, or one it rejects), the path writable and a
value `encoding/json` can encode, `Set` followed by the matching getter returns
the value, and the getter leaves the store and the world as `Set` left them. -/
theorem Set_then_getter (c : Config) (w : World) (key : String) (value : Value)
    (hfile : (c.configuration ≠ none ∧
        (w.fs.node c.configFile = .absent ∨
          ∃ ms e, w.fs.node c.configFile = .file (.json (.object ms)) ∧
            decodeObject ms = .error e)) ∨
      ∃ ms es, w.fs.node c.configFile = .file (.json (.object ms)) ∧
        decodeObject ms = .ok es)
    (hw : w.fs.writable c.configFile = true)
    (hv : JSONRepresentable value) :
    ∃ c1 w1, c.Set key value w = .ok ((), c1, w1) ∧
      (∀ s, value = .string s → c1.Get key w1 = .ok (s, c1, w1)) ∧
      (∀ xs, value = .slice xs → c1.GetAsArray key w1 = .ok (some xs, c1, w1)) ∧
      (∀ m, value = .map m → c1.GetAsMap key w1 = .ok (some m, c1, w1)) := by
  rcases hfile with ⟨hc, ha | ⟨ms, e, hf, hd⟩⟩ | ⟨ms, es, hf, hd⟩
  · cases hes : c.configuration with
    | none => exact absurd hes hc
    | some es =>
      refine Set_then_getter_of_failed_reload c w key value es .notExist ?_ hes
        (by simp [ha]) hw
      intro c2 h2
      exact readConfig_absent c2 w (h2 ▸ ha)
  · cases hes : c.configuration with
    | none => exact absurd hes hc
    | some es =>
      refine Set_then_getter_of_failed_reload c w key value es e ?_ hes
        (by simp [hf]) hw
      intro c2 h2
      exact readConfig_object_rejected c2 w ms e (h2 ▸ hf) hd
  · obtain ⟨j, hj⟩ := hv
    obtain ⟨ms1, w1, hset, hnode, hdec, _, _⟩ :=
      Set_object c w ms es key value j hf hd hw hj
    refine ⟨_, w1, hset, ?_⟩
    refine getters_of_stable _ w1 key value ?_ ?_
    · rw [readConfig_object
        { configuration := some (assign key value es),
          configFile := c.configFile } w1 ms1 (assign key value es) hnode hdec]
    · exact lookup_assign_self key value _

/-! ## Claims -/

/-- C1: the round-trip law fails on a store whose mapping is the nil map while
nothing is at its path. A fresh store bound to a file holding `null` answers
`Get` with the empty string and is left with a nil mapping; once the file is
gone (nothing at the path, the path writable), `Set("name", "alice")` on that
store panics instead of storing the value, so no getter can return it. -/
theorem C1_Set_panics_on_nil_mapping :
    ∃ c1, freshStore.Get "name" (fileWorld (.json .null))
        = .ok ("", c1, fileWorld (.json .null)) ∧
      c1.configuration = none ∧
      emptyWorld.fs.node c1.configFile = .absent ∧
      emptyWorld.fs.writable c1.configFile = true ∧
      c1.Set "name" (.string "alice") emptyWorld = .error .nilMapAssignment :=
  ⟨_, rfl, rfl, rfl, rfl, rfl⟩

/-- C2: `Get` on a key whose value is a number does not return the empty
string: after `Set("count", 1)` on a fresh store wrote the file,
`Get("count")` panics on its type assertion, while `GetAsArray("count")` and
`GetAsMap("count")` on the same store return nil. -/
theorem C2_Get_panics_on_number :
    ∃ c1 w1, freshStore.Set "count" (.float64 (.finite 1)) emptyWorld = .ok ((), c1, w1) ∧
      w1.fs.node "config.json" = .file (.json (.object [("count", .number (.fits 1))])) ∧
      c1.Get "count" w1 = .error .interfaceConversion ∧
      c1.GetAsArray "count" w1 = .ok (none, c1, w1) ∧
      c1.GetAsMap "count" w1 = .ok (none, c1, w1) :=
  ⟨_, _, rfl, rfl, rfl, rfl, rfl⟩

/-- C3: `Set` panics when the backing file holds the valid JSON document
`null`: the reload makes the mapping nil and the assignment that follows
panics. -/
theorem C3_Set_panics_on_null_file :
    freshStore.readConfig (fileWorld (.json .null)) = (none, Config.mk none "config.json") ∧
      freshStore.Set "name" (.string "alice") (fileWorld (.json .null))
        = .error .nilMapAssignment :=
  ⟨rfl, rfl⟩

/-- C4 as stated fails: a store whose mapping holds a NaN (left there by
`Set("x", NaN)` on a fresh store), with nothing at its writable path: `Check`
returns false and there is still nothing at the path. -/
theorem C4_counterexample :
    ∃ c w, freshStore.Set "x" (.float64 .nan) emptyWorld = .ok ((), c, w) ∧
      c.configuration = some [("x", .float64 .nan)] ∧
      w.fs.node c.configFile = .absent ∧ w.fs.writable c.configFile = true ∧
      ∃ c1 w1, c.Check w = .ok (false, c1, w1) ∧ w1.fs.node c.configFile = .absent :=
  ⟨_, _, rfl, rfl, rfl, rfl, _, _, rfl, rfl⟩

/-- C4 (amended): for every store whose in-memory mapping m is one
`encoding/json` can encode, whose backing path has no file and is writable,
`Check` returns false and afterwards the file exists and its content is valid
JSON that parses back to m, the empty object for a freshly constructed
store. -/
theorem C4_Check_creates_file (c : Config) (w : World) (d : Content)
    (ha : w.fs.node c.configFile = .absent)
    (hw : w.fs.writable c.configFile = true)
    (hm : MarshalIndent c.configuration = .ok d) :
    ∃ c1 w1, c.Check w = .ok (false, c1, w1) ∧
      w1.fs.node c.configFile = .file d ∧
      (∃ doc, d = .json doc) ∧
      Unmarshal d = .ok c.configuration ∧
      (c.configuration = some [] → d = .json (.object [])) := by
  have hstat : IsNotExist (Stat w.fs c.configFile) = true := by
    simp [Stat, ha, IsNotExist]
  let w0 := Printf w
    ("Could not find a configuration file at " ++ c.configFile ++ ". Creating one!")
  have hn : w0.fs.node c.configFile ≠ .unreadable := by
    show w.fs.node c.configFile ≠ .unreadable
    simp [ha]
  have hwc := writeConfig_ok c w0 d hm hw hn
  refine ⟨(c.readConfig (c.writeConfig w0).2).2, (c.writeConfig w0).2, ?_, hwc.2.1, ?_, ?_, ?_⟩
  · simp [Config.Check, hstat, w0]
  · cases hc : c.configuration with
    | none => simp [MarshalIndent, hc] at hm; exact ⟨_, hm.symm⟩
    | some es =>
      simp only [MarshalIndent, hc] at hm
      cases he : encodeMap es with
      | error e => simp [he] at hm
      | ok ms => simp [he] at hm; exact ⟨_, hm.symm⟩
  · cases hc : c.configuration with
    | none => simp [MarshalIndent, hc] at hm; subst hm; rfl
    | some es =>
      simp only [MarshalIndent, hc] at hm
      cases he : encodeMap es with
      | error e => simp [he] at hm
      | ok ms =>
        simp [he] at hm
        subst hm
        simp [Unmarshal, decode_encodeMap es ms he]
  · intro hc
    simp [MarshalIndent, hc, encodeMap] at hm
    exact hm.symm

/-- C4 (amended) at a fresh store on an empty file system. -/
theorem C4_Check_creates_file_witness :
    ∃ c1 w1, freshStore.Check emptyWorld = .ok (false, c1, w1) ∧
      w1.fs.node "config.json" = .file (.json (.object [])) ∧
      (∃ doc, Content.json (.object []) = .json doc) ∧
      Unmarshal (.json (.object [])) = .ok (some []) ∧
      ((some [] : GoMap) = some [] → Content.json (.object []) = .json (.object [])) :=
  C4_Check_creates_file freshStore emptyWorld (.json (.object [])) rfl rfl rfl

/-- C5: for every store whose backing file exists, whatever it holds, `Check`
returns true and leaves the world, the file's content included, as it was; in
particular when the store and the world are those a `Check` that returned
false has left, with the file it created, the next `Check` returns true and
leaves both unchanged. -/
theorem C5_Check_existing_file (c : Config) (w : World)
    (h : w.fs.node c.configFile ≠ .absent) :
    (∃ c1, c.Check w = .ok (true, c1, w) ∧ c1.configFile = c.configFile) ∧
    (∀ (c0 : Config) (w0 : World),
      c0.Check w0 = .ok (false, c, w) → c.Check w = .ok (true, c, w)) := by
  have hstat : IsNotExist (Stat w.fs c.configFile) = false := by
    simp [Stat, IsNotExist, h]
  refine ⟨⟨(c.readConfig w).2, ?_, readConfig_configFile c w⟩, ?_⟩
  · simp [Config.Check, hstat]
  · intro c0 w0 h0
    have hc : (c.readConfig w).2 = c := by
      unfold Config.Check at h0
      split at h0
      · simp only [Except.ok.injEq, Prod.mk.injEq, true_and] at h0
        obtain ⟨h1, h2⟩ := h0
        rw [h2] at h1
        have := readConfig_idem c0 w
        rw [h1] at this
        exact this
      · simp at h0
    simp [Config.Check, hstat, hc]

/-- C5 at the fresh store: its first `Check` on an empty file system returns
false and creates the file, and its `Check` in the world so created returns
true and changes nothing. -/
theorem C5_Check_existing_file_witness :
    createdWorld.fs.node freshStore.configFile ≠ .absent ∧
    freshStore.Check emptyWorld = .ok (false, freshStore, createdWorld) ∧
    (∃ c1, freshStore.Check createdWorld = .ok (true, c1, createdWorld) ∧
      c1.configFile = freshStore.configFile) ∧
    freshStore.Check createdWorld = .ok (true, freshStore, createdWorld) :=
  have hfile : createdWorld.fs.node freshStore.configFile = .file (.json (.object [])) := rfl
  have hne : createdWorld.fs.node freshStore.configFile ≠ .absent := by
    rw [hfile]; simp
  ⟨hne, rfl, (C5_Check_existing_file freshStore createdWorld hne).1,
    (C5_Check_existing_file freshStore createdWorld hne).2 freshStore emptyWorld rfl⟩

/-- C6 as stated fails in two places. The content `null` does not parse as a
JSON object, yet reloading it returns no error and replaces the mapping
`{"a": "x"}` by the nil map, so that `Get("a")` answers the empty string
instead of `"x"`. And with nothing at the path and the mapping `{"n": 1}`, the
reload fails and keeps the mapping, but `Get("n")` panics instead of
answering. -/
theorem C6_counterexample :
    ((fileWorld (.json .null)).fs.node "config.json" = .file (.json .null) ∧
      ((storeWith [("a", .string "x")]).readConfig (fileWorld (.json .null))).1 = none ∧
      ((storeWith [("a", .string "x")]).readConfig
        (fileWorld (.json .null))).2.configuration = none ∧
      (storeWith [("a", .string "x")]).configuration.get "a" = some (.string "x") ∧
      ∃ c1, (storeWith [("a", .string "x")]).Get "a" (fileWorld (.json .null))
        = .ok ("", c1, fileWorld (.json .null))) ∧
    ((storeWith [("n", .float64 (.finite 1))]).readConfig emptyWorld
        = (some .notExist, storeWith [("n", .float64 (.finite 1))]) ∧
      (storeWith [("n", .float64 (.finite 1))]).Get "n" emptyWorld
        = .error .interfaceConversion) :=
  ⟨⟨rfl, rfl, rfl, rfl, _, rfl⟩, rfl, rfl⟩

/-- C6 (amended): for every store with in-memory mapping m, if reading the
backing file fails (nothing at the path, or unreadable), or its content is not
valid JSON, or it is a JSON document whose top-level value is neither an object
nor `null`, `readConfig` returns an error and leaves the store, its mapping
included, as it was; `Get(key)` then answers from m: the string m holds under
the key, the empty string when m has no such key. -/
theorem C6_failed_reload_keeps_mapping (c : Config) (w : World) (key : String)
    (h : w.fs.node c.configFile = .absent ∨ w.fs.node c.configFile = .unreadable ∨
      (∃ bytes, w.fs.node c.configFile = .file (.text bytes)) ∨
      (∃ doc, w.fs.node c.configFile = .file (.json doc) ∧ doc ≠ .null ∧
        ∀ ms, doc ≠ .object ms)) :
    (∃ err, c.readConfig w = (some err, c)) ∧
    (∀ s, c.configuration.get key = some (.string s) → c.Get key w = .ok (s, c, w)) ∧
    (c.configuration.get key = none → c.Get key w = .ok ("", c, w)) := by
  have hr : ∃ err, c.readConfig w = (some err, c) := by
    rcases h with h | h | ⟨b, h⟩ | ⟨doc, h, hnull, hobj⟩
    · exact ⟨_, readConfig_absent c w h⟩
    · exact ⟨.permission, by simp [Config.readConfig, ReadFile, h]⟩
    · exact ⟨.invalidJSON, by simp [Config.readConfig, ReadFile, h, Unmarshal]⟩
    · refine ⟨.unmarshalType, ?_⟩
      cases doc with
      | null => exact absurd rfl hnull
      | object ms => exact absurd rfl (hobj ms)
      | bool b => simp [Config.readConfig, ReadFile, h, Unmarshal]
      | number n => simp [Config.readConfig, ReadFile, h, Unmarshal]
      | string s => simp [Config.readConfig, ReadFile, h, Unmarshal]
      | array xs => simp [Config.readConfig, ReadFile, h, Unmarshal]
  obtain ⟨err, he⟩ := hr
  refine ⟨⟨err, he⟩, ?_, ?_⟩
  · intro s hs
    simp [Config.Get, he, hs]
  · intro hs
    simp [Config.Get, he, hs]

/-- C6 (amended) at a store holding `{"a": "x"}` whose file holds the JSON
array `[]`. -/
theorem C6_failed_reload_keeps_mapping_witness :
    (∃ err, (storeWith [("a", .string "x")]).readConfig (fileWorld (.json (.array [])))
        = (some err, storeWith [("a", .string "x")])) ∧
    (storeWith [("a", .string "x")]).Get "a" (fileWorld (.json (.array [])))
      = .ok ("x", storeWith [("a", .string "x")], fileWorld (.json (.array []))) :=
  have h := C6_failed_reload_keeps_mapping
    (storeWith [("a", .string "x")]) (fileWorld (.json (.array []))) "a"
    (Or.inr (Or.inr (Or.inr ⟨.array [], rfl, by simp, by simp⟩)))
  ⟨h.1, h.2.1 "x" rfl⟩

/-- C7 as stated fails: the file holds the JSON object
`{"name": "bob", "big": 1e400}`. Its second number is out of the range of
float64, `json.Unmarshal` rejects the document, the reload fails, and each of
two stores bound to the path answers from its own mapping: `Get("name")` gives
the empty string on a fresh store and `"stale"` on a store whose mapping holds
`"stale"` under `"name"`. -/
theorem C7_counterexample :
    (fileWorld (.json (.object bigMembers))).fs.node freshStore.configFile
      = .file (.json (.object bigMembers)) ∧
    freshStore.configFile = (storeWith [("name", .string "stale")]).configFile ∧
    freshStore.Get "name" (fileWorld (.json (.object bigMembers)))
      = .ok ("", freshStore, fileWorld (.json (.object bigMembers))) ∧
    (storeWith [("name", .string "stale")]).Get "name" (fileWorld (.json (.object bigMembers)))
      = .ok ("stale", storeWith [("name", .string "stale")],
          fileWorld (.json (.object bigMembers))) ∧
    freshStore.Get "name" (fileWorld (.json (.object bigMembers)))
      ≠ (storeWith [("name", .string "stale")]).Get "name"
          (fileWorld (.json (.object bigMembers))) :=
  ⟨rfl, rfl, rfl, rfl, fun h =>
    have h1 : ("" : String) = "stale" :=
      congrArg (fun r : Outcome String =>
        match r with
        | .ok (s, _, _) => s
        | .error _ => "") h
    absurd h1 (by decide)⟩

/-- C7 (amended): when the backing file holds a JSON object that
`json.Unmarshal` accepts (no number literal in it is out of the range of
float64), two stores bound to the same path, whatever their in-memory
mappings, get equal outcomes from `Get`, `GetAsArray` and `GetAsMap` for every
key; and when one of them writes a value with `Set` (the path writable, the
value one `encoding/json` can encode), the matching getter of the other
returns that value. -/
theorem C7_reload_before_use (c1 c2 : Config) (w : World) (key : String)
    (ms : List (String × Json)) (es : List (String × Value))
    (hp : c1.configFile = c2.configFile)
    (hf : w.fs.node c1.configFile = .file (.json (.object ms)))
    (hu : Unmarshal (.json (.object ms)) = .ok (some es)) :
    c1.Get key w = c2.Get key w ∧
    c1.GetAsArray key w = c2.GetAsArray key w ∧
    c1.GetAsMap key w = c2.GetAsMap key w ∧
    (∀ value : Value, JSONRepresentable value → w.fs.writable c1.configFile = true →
      ∃ c1a w1, c1.Set key value w = .ok ((), c1a, w1) ∧
        (∀ s, value = .string s → ∃ c2a, c2.Get key w1 = .ok (s, c2a, w1)) ∧
        (∀ xs, value = .slice xs → ∃ c2a, c2.GetAsArray key w1 = .ok (some xs, c2a, w1)) ∧
        (∀ m, value = .map m → ∃ c2a, c2.GetAsMap key w1 = .ok (some m, c2a, w1))) := by
  have hd := decodeObject_of_Unmarshal ms es hu
  have hf2 : w.fs.node c2.configFile = .file (.json (.object ms)) := hp ▸ hf
  have hr1 := readConfig_object c1 w ms es hf hd
  have hr2 := readConfig_object c2 w ms es hf2 hd
  refine ⟨?_, ?_, ?_, ?_⟩
  · simp [Config.Get, hr1, hr2, hp]
  · simp [Config.GetAsArray, hr1, hr2, hp]
  · simp [Config.GetAsMap, hr1, hr2, hp]
  · intro value ⟨j, hj⟩ hw
    obtain ⟨ms1, w1, hset, hnode, hdec, _, _⟩ :=
      Set_object c1 w ms es key value j hf hd hw hj
    have hnode2 : w1.fs.node c2.configFile = .file (.json (.object ms1)) := hp ▸ hnode
    have hr := readConfig_object c2 w1 ms1 _ hnode2 hdec
    have hl : lookup key (assign key value es) = some value :=
      lookup_assign_self key value _
    refine ⟨_, w1, hset, ?_, ?_, ?_⟩
    · intro s hs
      subst hs
      exact ⟨(c2.readConfig w1).2, by simp [Config.Get, hr, GoMap.get, hl]⟩
    · intro xs hs
      subst hs
      exact ⟨(c2.readConfig w1).2, by simp [Config.GetAsArray, hr, GoMap.get, hl]⟩
    · intro m hs
      subst hs
      exact ⟨(c2.readConfig w1).2, by simp [Config.GetAsMap, hr, GoMap.get, hl]⟩

/-- C7 (amended) at a fresh store and a store with a stale mapping, both bound
to a file holding `{"name": "bob"}`. -/
theorem C7_reload_before_use_witness :
    freshStore.Get "name" (fileWorld (.json (.object [("name", .string "bob")])))
      = (storeWith [("name", .string "stale")]).Get "name"
          (fileWorld (.json (.object [("name", .string "bob")]))) ∧
    freshStore.GetAsArray "name" (fileWorld (.json (.object [("name", .string "bob")])))
      = (storeWith [("name", .string "stale")]).GetAsArray "name"
          (fileWorld (.json (.object [("name", .string "bob")]))) ∧
    freshStore.GetAsMap "name" (fileWorld (.json (.object [("name", .string "bob")])))
      = (storeWith [("name", .string "stale")]).GetAsMap "name"
          (fileWorld (.json (.object [("name", .string "bob")]))) ∧
    ∃ c1a w1, freshStore.Set "name" (.string "alice")
        (fileWorld (.json (.object [("name", .string "bob")]))) = .ok ((), c1a, w1) ∧
      ∃ c2a, (storeWith [("name", .string "stale")]).Get "name" w1
        = .ok ("alice", c2a, w1) :=
  have h := C7_reload_before_use freshStore (storeWith [("name", .string "stale")])
    (fileWorld (.json (.object [("name", .string "bob")])))
    "name" [("name", .string "bob")] [("name", .string "bob")] rfl rfl rfl
  ⟨h.1, h.2.1, h.2.2.1,
    match h.2.2.2 (.string "alice") ⟨.string "alice", rfl⟩ rfl with
    | ⟨c1a, w1, hs, hg, _, _⟩ => ⟨c1a, w1, hs, hg "alice" rfl⟩⟩

/-- C8: with m the mapping in effect after the reload, for a key missing from m
`Get` returns the empty string and `GetAsArray` and `GetAsMap` return nil;
`GetAsArray` returns nil as well when the value under the key is not a slice,
`GetAsMap` when it is not a map; none of these calls panics. -/
theorem C8_getter_defaults (c : Config) (w : World) (key : String) :
    ((c.readConfig w).2.configuration.get key = none →
      c.Get key w = .ok ("", (c.readConfig w).2, w) ∧
      c.GetAsArray key w = .ok (none, (c.readConfig w).2, w) ∧
      c.GetAsMap key w = .ok (none, (c.readConfig w).2, w)) ∧
    (∀ v, (c.readConfig w).2.configuration.get key = some v → (∀ xs, v ≠ .slice xs) →
      c.GetAsArray key w = .ok (none, (c.readConfig w).2, w)) ∧
    (∀ v, (c.readConfig w).2.configuration.get key = some v → (∀ m, v ≠ .map m) →
      c.GetAsMap key w = .ok (none, (c.readConfig w).2, w)) := by
  refine ⟨?_, ?_, ?_⟩
  · intro h
    simp [Config.Get, Config.GetAsArray, Config.GetAsMap, h]
  · intro v h hv
    simp only [Config.GetAsArray, h]
    cases v with
    | slice xs => exact absurd rfl (hv xs)
    | _ => rfl
  · intro v h hv
    simp only [Config.GetAsMap, h]
    cases v with
    | map m => exact absurd rfl (hv m)
    | _ => rfl

/-- C8 at a fresh store: on an empty file system every getter gives its
default for `"tags"`; on a file holding `{"tags": "x"}` `GetAsArray` and
`GetAsMap` return nil for `"tags"`. -/
theorem C8_getter_defaults_witness :
    (freshStore.Get "tags" emptyWorld = .ok ("", freshStore, emptyWorld) ∧
      freshStore.GetAsArray "tags" emptyWorld = .ok (none, freshStore, emptyWorld) ∧
      freshStore.GetAsMap "tags" emptyWorld = .ok (none, freshStore, emptyWorld)) ∧
    freshStore.GetAsArray "tags" (fileWorld (.json (.object [("tags", .string "x")])))
      = .ok (none, storeWith [("tags", .string "x")],
          fileWorld (.json (.object [("tags", .string "x")]))) ∧
    freshStore.GetAsMap "tags" (fileWorld (.json (.object [("tags", .string "x")])))
      = .ok (none, storeWith [("tags", .string "x")],
          fileWorld (.json (.object [("tags", .string "x")]))) :=
  ⟨(C8_getter_defaults freshStore emptyWorld "tags").1 rfl,
    (C8_getter_defaults freshStore (fileWorld (.json (.object [("tags", .string "x")])))
      "tags").2.1 (.string "x") rfl (by simp),
    (C8_getter_defaults freshStore (fileWorld (.json (.object [("tags", .string "x")])))
      "tags").2.2 (.string "x") rfl (by simp)⟩

/-- C9: `NewConfig` binds the store to the value of `CONFIG_PATH` whenever the
variable is set, whatever the value, and to `config.json` otherwise;
`NewConfigWithFile p` binds it to `p`; the new store's mapping is the empty
map and the world, the file system included, is as before. -/
theorem C9_path_resolution (w : World) (p : String) :
    (∀ path, LookupEnv w "CONFIG_PATH" = some path →
      NewConfig w = (Config.mk (some []) path, w)) ∧
    (LookupEnv w "CONFIG_PATH" = none →
      NewConfig w = (Config.mk (some []) "config.json", w)) ∧
    NewConfigWithFile p w = (Config.mk (some []) p, w) := by
  refine ⟨?_, ?_, rfl⟩
  · intro path h
    simp [NewConfig, h, NewConfigWithFile]
  · intro h
    simp [NewConfig, h, NewConfigWithFile]

/-- C9 where `CONFIG_PATH` is set to the empty string, and where it is not
set. -/
theorem C9_path_resolution_witness :
    NewConfig (envWorld "") = (Config.mk (some []) "", envWorld "") ∧
    NewConfig emptyWorld = (Config.mk (some []) "config.json", emptyWorld) ∧
    NewConfigWithFile "a.json" emptyWorld = (Config.mk (some []) "a.json", emptyWorld) :=
  ⟨(C9_path_resolution (envWorld "") "").1 "" rfl,
    (C9_path_resolution emptyWorld "").2.1 rfl,
    (C9_path_resolution emptyWorld "a.json").2.2⟩

/-- C10 as stated fails in two places. With the file holding `{}` and the path
writable, `Set("x", NaN)` leaves the file holding `{}`, in which `"x"` is
missing. And with the file holding the JSON object
`{"name": "bob", "big": 1e400}`, which `json.Unmarshal` rejects, `Set("k", "v")`
on a fresh store rewrites the file as `{"k": "v"}`: `"name"` is lost. -/
theorem C10_counterexample :
    ((fileWorld (.json (.object []))).fs.node freshStore.configFile
        = .file (.json (.object [])) ∧
      (fileWorld (.json (.object []))).fs.writable freshStore.configFile = true ∧
      ∃ c1 w1, freshStore.Set "x" (.float64 .nan) (fileWorld (.json (.object [])))
          = .ok ((), c1, w1) ∧
        ReadFile w1.fs freshStore.configFile = .ok (.json (.object [])) ∧
        Unmarshal (.json (.object [])) = .ok (some []) ∧
        GoMap.get (some []) "x" = none) ∧
    ((fileWorld (.json (.object bigMembers))).fs.node freshStore.configFile
        = .file (.json (.object bigMembers)) ∧
      (fileWorld (.json (.object bigMembers))).fs.writable freshStore.configFile = true ∧
      JSONRepresentable (.string "v") ∧
      ∃ c1 w1, freshStore.Set "k" (.string "v") (fileWorld (.json (.object bigMembers)))
          = .ok ((), c1, w1) ∧
        ReadFile w1.fs freshStore.configFile = .ok (.json (.object [("k", .string "v")])) ∧
        Unmarshal (.json (.object [("k", .string "v")])) = .ok (some [("k", .string "v")]) ∧
        GoMap.get (some [("k", .string "v")]) "name" = none) :=
  ⟨⟨rfl, rfl, _, _, rfl, rfl, rfl, rfl⟩,
    rfl, rfl, ⟨.string "v", rfl⟩, _, _, rfl, rfl, rfl, rfl⟩

/-- C10 (amended): for every store whose backing file holds a JSON object that
`json.Unmarshal` accepts, as the mapping m, and whose path is writable, every
key k and every value v `encoding/json` can encode, after `Set(k, v)` the
backing file holds a JSON object that parses to m updated at k with v: k has
the value v, and every other key has what it had in m, a value or nothing. No
other path is touched. -/
theorem C10_Set_changes_only_its_key (c : Config) (w : World)
    (ms : List (String × Json)) (es : List (String × Value))
    (key : String) (value : Value)
    (hf : w.fs.node c.configFile = .file (.json (.object ms)))
    (hu : Unmarshal (.json (.object ms)) = .ok (some es))
    (hw : w.fs.writable c.configFile = true)
    (hv : JSONRepresentable value) :
    ∃ c1 w1 ms1, c.Set key value w = .ok ((), c1, w1) ∧
      ReadFile w1.fs c.configFile = .ok (.json (.object ms1)) ∧
      Unmarshal (.json (.object ms1)) = .ok (some (assign key value es)) ∧
      GoMap.get (some (assign key value es)) key = some value ∧
      (∀ k, k ≠ key →
        GoMap.get (some (assign key value es)) k = GoMap.get (some es) k) ∧
      (∀ q, q ≠ c.configFile → w1.fs.node q = w.fs.node q) := by
  have hd := decodeObject_of_Unmarshal ms es hu
  obtain ⟨j, hj⟩ := hv
  obtain ⟨ms1, w1, hset, hnode, hdec, hother, _⟩ :=
    Set_object c w ms es key value j hf hd hw hj
  refine ⟨_, w1, ms1, hset, ?_, ?_, ?_, ?_, hother⟩
  · simp [ReadFile, hnode]
  · simp [Unmarshal, hdec]
  · exact lookup_assign_self key value es
  · intro k hk
    exact lookup_assign_other key k value es hk

/-- C10 (amended) at a file holding `{"a": 1}`: after `Set("b", "x")` the file
parses to a mapping that holds both keys. -/
theorem C10_Set_changes_only_its_key_witness :
    ∃ c1 w1 ms1, freshStore.Set "b" (.string "x")
        (fileWorld (.json (.object [("a", .number (.fits 1))]))) = .ok ((), c1, w1) ∧
      ReadFile w1.fs "config.json" = .ok (.json (.object ms1)) ∧
      Unmarshal (.json (.object ms1))
        = .ok (some (assign "b" (.string "x") [("a", .float64 (.finite 1))])) ∧
      GoMap.get (some (assign "b" (.string "x") [("a", .float64 (.finite 1))])) "b"
        = some (.string "x") ∧
      GoMap.get (some (assign "b" (.string "x") [("a", .float64 (.finite 1))])) "a"
        = some (.float64 (.finite 1)) :=
  match C10_Set_changes_only_its_key freshStore
    (fileWorld (.json (.object [("a", .number (.fits 1))])))
    [("a", .number (.fits 1))] [("a", .float64 (.finite 1))] "b" (.string "x")
    rfl rfl rfl ⟨.string "x", rfl⟩ with
  | ⟨c1, w1, ms1, hs, hr, hu, hk, ho, _⟩ =>
    ⟨c1, w1, ms1, hs, hr, hu, hk, (ho "a" (by decide)).trans rfl⟩

end config
